import Mathlib

/-!
Verification of the wave-survival game core (`src/js/entities/ZombieManager.js`,
`src/js/core/PlayerController.js`, `src/js/ui/UIManager.js` (HealthPackManager)
and the WaveManager module).

The JavaScript source keeps all per-entity state in one mutable `userData` bag.
Each component below is embedded as a Lean record carrying exactly the fields the
embedded functions read or write, together with pure functions mirroring the
source line by line.  Numeric values are modelled exactly: `ℚ` where only
field arithmetic and comparisons occur, `ℝ` where the source normalizes
vectors (`Math.sqrt`).  JavaScript truthiness, `Math.random()` and clock reads
(`Date.now()`, `performance.now()`) are passed in as explicit parameters.
-/

namespace Combat

/-- The fields of `zombie.userData` read or written by `ZombieManager.damageZombie`
(`ZombieManager.js` lines 410–493) and by the two per-tick updates that touch the
same fields, `updateZombieHitEffects` (lines 528–565, fields `isHit`,
`hitFlashTime`) and `updateZombieDeathAnimation` (lines 772–801, field
`deathAnimationProgress`).  No other function in the source assigns `health` or
`isDead`. -/
structure DZombie where
  health : ℚ
  isHit : Bool
  hitFlashTime : ℚ
  isDead : Bool
  deathAnimationProgress : ℚ
  deriving DecidableEq, Repr

/-- `ZombieManager.createZombie` (lines 74–208): `health` is `params.health`,
where `params` is `TANK_ZOMBIE` (health 200) when `type === 'tank'` and
`REGULAR_ZOMBIE` (health 100) otherwise; `isDead` starts `false`,
`deathAnimationProgress` 0, `isHit` false, `hitFlashTime` 0. -/
def spawnZombie (type : String) : DZombie :=
  { health := if type = "tank" then 200 else 100
    isHit := false
    hitFlashTime := 0
    isDead := false
    deathAnimationProgress := 0 }

/-- `ZombieManager.damageZombie(zombie, damage, camera)` (lines 410–493):
subtract `damage` from `health`, set the hit flash (`isHit := true`,
`hitFlashTime := 0`); if the resulting health is ≤ 0, set `isDead := true` and
`deathAnimationProgress := 0` (the death branch; sounds/particles are external
side effects); finally return `zombie.userData.health <= 0`.  Note the source
never tests `isDead` before applying damage. -/
def damageZombie (z : DZombie) (damage : ℚ) : DZombie × Bool :=
  let z1 : DZombie := { z with health := z.health - damage, isHit := true, hitFlashTime := 0 }
  let z2 : DZombie :=
    if z1.health ≤ 0 then { z1 with isDead := true, deathAnimationProgress := 0 } else z1
  (z2, decide (z2.health ≤ 0))

/-- `ZombieManager.updateZombieHitEffects` (lines 528–565) restricted to the
`DZombie` fields: advance `hitFlashTime` and clear `isHit` once it reaches the
flash duration (`hitFlashDuration` is initialized to 0.2 at creation and never
reassigned); colors are rendering state, external to this model. -/
def updateHitEffects (z : DZombie) (dt : ℚ) : DZombie :=
  if z.isHit then
    let z1 : DZombie := { z with hitFlashTime := z.hitFlashTime + dt }
    if z1.hitFlashTime ≥ 0.2 then { z1 with isHit := false } else z1
  else z

/-- `ZombieManager.updateZombieDeathAnimation` (lines 772–801) restricted to the
`DZombie` fields: `deathAnimationProgress += deltaTime / deathAnimationDuration`
(`deathAnimationDuration` is initialized to 1.5 at creation and never
reassigned); the remaining assignments are pose/rotation fields. -/
def updateDeathAnimation (z : DZombie) (dt : ℚ) : DZombie :=
  { z with deathAnimationProgress := z.deathAnimationProgress + dt / 1.5 }

/-- One mutation of a zombie's `DZombie` fields during the simulation.  The
only call site of `damageZombie` passes the fixed weapon damage 25
(`main.js` line 870), modelled as an arbitrary nonnegative amount.
`updateZombieAI` and its callees assign only fields outside `DZombie`
(position, walk/attack timers, avoidance state), so they are identity here. -/
inductive ZombieStep : DZombie → DZombie → Prop
  | damage (z : DZombie) (a : ℚ) (ha : 0 ≤ a) : ZombieStep z (damageZombie z a).1
  | hitFx (z : DZombie) (dt : ℚ) : ZombieStep z (updateHitEffects z dt)
  | deathAnim (z : DZombie) (dt : ℚ) : ZombieStep z (updateDeathAnimation z dt)

/-- A zombie state reachable in the simulation: created by
`ZombieManager.createZombie` and evolved by any number of steps. -/
inductive ReachableZombie : DZombie → Prop
  | spawn (type : String) : ReachableZombie (spawnZombie type)
  | step {z z' : DZombie} : ReachableZombie z → ZombieStep z z' → ReachableZombie z'

end Combat

namespace Player

/-- The fields of `PlayerController` (`src/js/core/PlayerController.js`) read
or written by `takeDamage` and `cancelHealing`: `health`, the `isHealing` flag
and the heal bookkeeping fields (lines 292–306, 335–345, 370–382). -/
structure PState where
  health : ℚ
  isHealing : Bool
  healAmount : ℚ
  healDuration : ℚ
  healProgress : ℚ
  deriving DecidableEq, Repr

/-- `PlayerController.cancelHealing()` (lines 335–345): if not healing return
`false`; otherwise clear `isHealing` and return `true`.  The partial healing
already applied is kept — `health` is not touched. -/
def cancelHealing (p : PState) : PState × Bool :=
  if p.isHealing = false then (p, false)
  else ({ p with isHealing := false }, true)

/-- `PlayerController.takeDamage(amount)` (lines 370–382): cancel healing if in
progress, then `health = Math.max(0, health - amount)`.  The red-flash UI call
is an external side effect. -/
def takeDamage (p : PState) (amount : ℚ) : PState :=
  let p1 : PState := if p.isHealing then (cancelHealing p).1 else p
  { p1 with health := max 0 (p1.health - amount) }

end Player

namespace Loot

/-- `HealthPackManager.DROP_CHANCES` (`UIManager.js` lines 343–347): the
per-type drop probability table. -/
def DROP_CHANCES (t : String) : Option ℚ :=
  if t = "regular" then some 0.15
  else if t = "runner" then some 0.20
  else if t = "tank" then some 0.30
  else none

/-- The probability lookup in `HealthPackManager.spawnHealthPackAtZombie`
(lines 443–451): `zombieType = zombie.userData.zombieType || 'regular'`, then
`dropChance = this.DROP_CHANCES[zombieType] || this.DROP_CHANCES.regular`.
A missing (`none`) type falls back to `'regular'`, and a type absent from the
table falls back to the regular-tier chance.  (All table entries are nonzero,
so JavaScript's falsy-`||` agrees with `Option.getD`; the empty string, the
one falsy string, is absent from the table and also yields 0.15 either way.) -/
def dropChanceFor (zombieType : Option String) : ℚ :=
  (DROP_CHANCES (zombieType.getD "regular")).getD 0.15

/-- The Bernoulli decision in `spawnHealthPackAtZombie` (line 449): the pack is
NOT spawned when `Math.random() > dropChance`, i.e. it is spawned exactly when
the drawn `rand` satisfies `rand ≤ dropChance`. -/
def rollLootDrop (zombieType : Option String) (rand : ℚ) : Bool :=
  !(decide (rand > dropChanceFor zombieType))

end Loot

namespace Wave

/-- One entry of `WaveManager.waveConfigurations`: per-type zombie counts. -/
structure WaveConfig where
  regularZombies : ℤ
  tankZombies : ℤ
  runnerZombies : ℤ
  deriving DecidableEq, Repr

/-- The authored `waveConfigurations` table (WaveManager module, lines 16–24). -/
def waveConfigurations0 : List WaveConfig :=
  [⟨5, 0, 0⟩, ⟨7, 0, 2⟩, ⟨7, 1, 2⟩, ⟨8, 1, 3⟩, ⟨9, 2, 5⟩, ⟨10, 2, 7⟩, ⟨12, 3, 10⟩]

/-- The synthesized configuration appended by `WaveManager.startNextWave`
(lines 76–80) when the counter passes the table:
`Math.floor(last.regularZombies * 1.2)`,
`Math.floor(last.tankZombies * 1.2) + 1`,
`Math.floor(last.runnerZombies * 1.3) + 2`. -/
def nextWaveConfig (last : WaveConfig) : WaveConfig :=
  { regularZombies := ⌊(last.regularZombies : ℚ) * 1.2⌋
    tankZombies := ⌊(last.tankZombies : ℚ) * 1.2⌋ + 1
    runnerZombies := ⌊(last.runnerZombies : ℚ) * 1.3⌋ + 2 }

/-- The per-zombie state the `WaveManager` reads back from the roster: spawn
position, type tag and the `isDead` flag (`update` filters on `!isDead`). -/
structure WZombie where
  posX : ℚ
  posZ : ℚ
  ztype : String
  isDead : Bool
  deriving DecidableEq, Repr

/-- The mutable state of a `WaveManager` (constructor lines 16–30): the
configuration table, the wave counter, the active flag, the logged remaining
count and the `Date.now()` timestamp of the wave start (milliseconds). -/
structure WaveState where
  waveConfigurations : List WaveConfig
  currentWave : ℕ
  waveActive : Bool
  zombiesRemaining : ℤ
  waveStartTime : ℚ
  deriving DecidableEq, Repr

/-- `WaveManager.startNextWave()` (lines 68–102): increment the counter; if it
now exceeds the table length, append `nextWaveConfig` of the last entry; look
up the current configuration; set `waveActive`, record `Date.now()` (the `now`
parameter) and the total zombie count.  The announcement, sound and the
2-second delayed `spawnWaveZombies` call are external effects.  (On an empty
table the source would read `undefined`; the model supplies the all-zero
configuration, a case never reached from the authored 7-entry table.) -/
def startNextWave (w : WaveState) (now : ℚ) : WaveState :=
  let cur := w.currentWave + 1
  let cfgs :=
    if w.waveConfigurations.length < cur then
      w.waveConfigurations ++ [nextWaveConfig (w.waveConfigurations.getLast?.getD ⟨0, 0, 0⟩)]
    else w.waveConfigurations
  let cfg := cfgs.getD (cur - 1) ⟨0, 0, 0⟩
  { waveConfigurations := cfgs
    currentWave := cur
    waveActive := true
    waveStartTime := now
    zombiesRemaining := cfg.regularZombies + cfg.tankZombies + cfg.runnerZombies }

/-- The two `Math.random()` draws used for one spawn position: a point on the
unit circle standing for `(Math.cos(angle), Math.sin(angle))` of the random
angle, and the uniform draw for the distance. -/
structure SpawnRand where
  c : ℚ
  s : ℚ
  dist : ℚ

/-- The draw `(c, s)` lies on the unit circle and the distance draw is the
half-open range of `Math.random()`. -/
def SpawnRand.Valid (r : SpawnRand) : Prop :=
  r.c * r.c + r.s * r.s = 1 ∧ 0 ≤ r.dist ∧ r.dist < 1

/-- `WaveManager.getSpawnPosition(minDistance, maxDistance)` (lines 188–198):
`distance = minDistance + Math.random() * (maxDistance - minDistance)`,
position `(Math.cos(angle) * distance, Math.sin(angle) * distance)`. -/
def getSpawnPosition (minD maxD : ℚ) (r : SpawnRand) : ℚ × ℚ :=
  let distance := minD + r.dist * (maxD - minD)
  (r.c * distance, r.s * distance)

/-- One zombie created by `spawnWaveZombies` through
`ZombieManager.createZombie(x, z, type)`: fresh zombies start alive. -/
def spawnOne (minD maxD : ℚ) (type : String) (r : SpawnRand) : WZombie :=
  let p := getSpawnPosition minD maxD r
  { posX := p.1, posZ := p.2, ztype := type, isDead := false }

/-- `WaveManager.spawnWaveZombies(waveConfig)` (lines 128–180): first clear
every stale roster entry (the result does not depend on the old roster), then
create `regularZombies` zombies at distance band 40–60, `tankZombies` at 50–70
and `runnerZombies` at 35–55.  A JavaScript `for (let i = 0; i < n; i++)` loop
runs `max n 0` times, hence `Int.toNat`.  `rands` supplies the random draws of
the successive `getSpawnPosition` calls. -/
def spawnWaveZombies (cfg : WaveConfig) (staleRoster : List WZombie)
    (rands : ℕ → SpawnRand) : List WZombie :=
  let _ := staleRoster
  let nr := cfg.regularZombies.toNat
  let nt := cfg.tankZombies.toNat
  let regulars := (List.range nr).map fun i => spawnOne 40 60 "regular" (rands i)
  let tanks := (List.range nt).map fun i => spawnOne 50 70 "tank" (rands (nr + i))
  let runners := (List.range cfg.runnerZombies.toNat).map fun i =>
    spawnOne 35 55 "runner" (rands (nr + nt + i))
  regulars ++ tanks ++ runners

/-- The living-zombie count computed by `WaveManager.update` (lines 207–209):
`getZombies().filter(zombie => !zombie.userData.isDead).length`. -/
def livingCount (zs : List WZombie) : ℕ :=
  (zs.filter fun z => !z.isDead).length

/-- `WaveManager.update()` (lines 204–229): return `false` when the wave is not
active; otherwise count living zombies, compute the elapsed time since
`waveStartTime` (`now` is `Date.now()` in milliseconds), refresh the logged
`zombiesRemaining`, and — when no living zombie remains and the elapsed time
strictly exceeds the 5000 ms minimum wave time — clear `waveActive` and return
`true`; in every other case return `false`. -/
def waveUpdate (w : WaveState) (now : ℚ) (zs : List WZombie) : WaveState × Bool :=
  if w.waveActive = false then (w, false)
  else
    let cnt : ℤ := livingCount zs
    let elapsed := now - w.waveStartTime
    let w1 : WaveState :=
      if w.zombiesRemaining ≠ cnt then { w with zombiesRemaining := cnt } else w
    if cnt = 0 ∧ elapsed > 5000 then ({ w1 with waveActive := false }, true)
    else (w1, false)

/-- Run `waveUpdate` over a sequence of ticks, each supplying the clock value
and the roster snapshot, counting how many calls returned `true`. -/
def runWaveUpdates (w : WaveState) : List (ℚ × List WZombie) → ℕ
  | [] => 0
  | (now, zs) :: rest =>
      let r := waveUpdate w now zs
      (if r.2 then 1 else 0) + runWaveUpdates r.1 rest

end Wave

namespace Hit

open Classical

/-- A 3-component vector (`THREE.Vector3`). -/
structure V3 where
  x : ℝ
  y : ℝ
  z : ℝ

/-- `THREE.Vector3.dot`. -/
def V3.dot (a b : V3) : ℝ := a.x * b.x + a.y * b.y + a.z * b.z

/-- `THREE.Vector3.lengthSq`. -/
def V3.normSq (v : V3) : ℝ := v.x * v.x + v.y * v.y + v.z * v.z

/-- `THREE.Vector3.length`. -/
noncomputable def V3.length (v : V3) : ℝ := Real.sqrt v.normSq

/-- `THREE.Vector3.normalize`: divide by `length || 1`, so the zero vector is
left unchanged. -/
noncomputable def normalize3 (v : V3) : V3 :=
  if v.length = 0 then v else ⟨v.x / v.length, v.y / v.length, v.z / v.length⟩

/-- The fields of a roster zombie read by `ZombieManager.checkZombieHit`
(`ZombieManager.js` lines 357–401): world position, `userData.hitRange` and
`userData.isDead`. -/
structure HZombie where
  posX : ℝ
  posY : ℝ
  posZ : ℝ
  hitRange : ℝ
  isDead : Bool

/-- The vector from the camera to a zombie's aim point (lines 374–376):
`(zombie.position.x - camera.position.x, zombie.position.y + 1.0 -
camera.position.y, zombie.position.z - camera.position.z)`. -/
def zombieDelta (camPos : V3) (z : HZombie) : V3 :=
  ⟨z.posX - camPos.x, z.posY + 1 - camPos.y, z.posZ - camPos.z⟩

/-- The camera-to-zombie distance (line 379). -/
noncomputable def zombieDistance (camPos : V3) (z : HZombie) : ℝ :=
  (zombieDelta camPos z).length

/-- The loop body of `checkZombieHit` (lines 369–398), with the accumulator
`(hitZombie, closestDistance)`; `none` stands for the initial
`hitZombie = null, closestDistance = Infinity`.  A zombie is recorded when it
is alive, within its own `hitRange`, its direction has dot product with the
player's forward vector strictly above the 0.7 threshold, and it is strictly
closer than the current best. -/
noncomputable def hitFold (camPos forward : V3) :
    List HZombie → Option (HZombie × ℝ) → Option (HZombie × ℝ)
  | [], acc => acc
  | z :: rest, acc =>
      if z.isDead then hitFold camPos forward rest acc
      else
        let dist := zombieDistance camPos z
        if dist ≤ z.hitRange then
          let direction := normalize3 (zombieDelta camPos z)
          let dotProduct := forward.dot direction
          let closer : Prop := match acc with
            | none => True
            | some best => dist < best.2
          if dotProduct > 0.7 ∧ closer then hitFold camPos forward rest (some (z, dist))
          else hitFold camPos forward rest acc
        else hitFold camPos forward rest acc

/-- `ZombieManager.checkZombieHit(camera)` (lines 357–401).  The source first
builds the forward vector by rotating `(0, 0, -1)` by the camera quaternion and
normalizing; the rotated vector is the `forward0` parameter here, and the
explicit `forward.normalize()` call (line 363) is kept. -/
noncomputable def checkZombieHit (camPos forward0 : V3) (zombies : List HZombie) :
    Option HZombie :=
  let forward := normalize3 forward0
  (hitFold camPos forward zombies none).map Prod.fst

/-- The filter of `checkZombieHit`: alive, within `hitRange`, and inside the
forward hit cone (dot product of the normalized camera-to-zombie vector with
the forward vector strictly above the 0.7 ≈ cos 45° threshold). -/
def Qualifies (camPos forward : V3) (z : HZombie) : Prop :=
  z.isDead = false ∧ zombieDistance camPos z ≤ z.hitRange ∧
    forward.dot (normalize3 (zombieDelta camPos z)) > 0.7

end Hit

namespace Avoid

open Classical

/-- A planar vector: `getAvoidanceDirection` works in the xz-plane (every
`THREE.Vector3` it builds has `y = 0`). -/
structure V2 where
  x : ℝ
  z : ℝ

/-- Planar dot product. -/
def V2.dot (a b : V2) : ℝ := a.x * b.x + a.z * b.z

/-- Planar squared length. -/
def V2.normSq (v : V2) : ℝ := v.x * v.x + v.z * v.z

/-- `THREE.Vector3.normalize` on a planar vector: divide by `length || 1`, so
the zero vector is left unchanged. -/
noncomputable def normalize2 (v : V2) : V2 :=
  if v.normSq = 0 then v
  else ⟨v.x / Real.sqrt v.normSq, v.z / Real.sqrt v.normSq⟩

/-- An entry of the obstacle list as read by `getAvoidanceDirection`:
`radius = none` models an entry without `position`/`userData.radius`, which
the scan skips (line 889). -/
structure Obstacle where
  posX : ℝ
  posZ : ℝ
  radius : Option ℝ

/-- The fields of `zombie.userData` (plus the zombie position) read or written
by `ZombieManager.getAvoidanceDirection` (lines 853–954); `radius` (the
zombie's own collision radius) is carried for stating the claimed
radius-sum property, the function itself never reads it. -/
structure AvState where
  posX : ℝ
  posZ : ℝ
  radius : ℝ
  isAvoidingObstacle : Bool
  avoidanceTime : ℝ
  avoidanceDirection : V2
  pathfindCooldown : ℝ
  obstacleDetectionRange : ℝ

/-- The obstacle scan of `getAvoidanceDirection` (lines 880–920): skip entries
without a radius, entries beyond `obstacleDetectionRange`, and entries whose
direction has dot product < 0.5 with the movement direction; keep the closest
candidate (`closestDistance` starts at the detection range); stop after the
fifth surviving candidate (`checkedCount++; if (checkedCount >= 5) break`). -/
noncomputable def scanObstacles (range zx zz : ℝ) (dir : V2) :
    List Obstacle → ℝ → Option Obstacle → ℕ → Option Obstacle
  | [], _, best, _ => best
  | o :: rest, closestDist, best, checkedCount =>
      match o.radius with
      | none => scanObstacles range zx zz dir rest closestDist best checkedCount
      | some _ =>
          let dx := o.posX - zx
          let dz := o.posZ - zz
          let distSquared := dx * dx + dz * dz
          if distSquared > range * range then
            scanObstacles range zx zz dir rest closestDist best checkedCount
          else
            let distance := Real.sqrt distSquared
            let toObstacle := normalize2 ⟨dx, dz⟩
            if dir.dot toObstacle < 0.5 then
              scanObstacles range zx zz dir rest closestDist best checkedCount
            else
              let best' := if distance < closestDist then some o else best
              let closest' := if distance < closestDist then distance else closestDist
              if 5 ≤ checkedCount + 1 then best'
              else scanObstacles range zx zz dir rest closest' best' (checkedCount + 1)

/-- `ZombieManager.getAvoidanceDirection(zombie, targetPos, obstacles,
deltaTime)` (lines 853–954), returning the updated zombie state and the
movement vector.  `rnd` is the `Math.random()` draw of line 950 (avoidance
time `0.3 + rnd * 0.2`).  Branches in source order: (1) keep the cached
avoidance direction while `isAvoidingObstacle && avoidanceTime > 0`; (2) the
flattened direction to the target, returned as-is when zero-length; (3) the
normalized direct direction when the scan cooldown has not elapsed; otherwise
reset the cooldown to 0.1 s and scan; (4) no blocker: clear the avoidance flag
and return the direct direction; (5) blocker: return whichever perpendicular
of the zombie→blocker direction agrees more with the direct direction, cache
it and arm the avoidance timer. -/
noncomputable def getAvoidanceDirection (z : AvState) (target : V2)
    (obstacles : List Obstacle) (rnd : ℝ) : AvState × V2 :=
  if z.isAvoidingObstacle = true ∧ z.avoidanceTime > 0 then (z, z.avoidanceDirection)
  else
    let d0 : V2 := ⟨target.x - z.posX, target.z - z.posZ⟩
    if d0.normSq = 0 then (z, d0)
    else
      let direction := normalize2 d0
      if z.pathfindCooldown > 0 then (z, direction)
      else
        let z1 : AvState := { z with pathfindCooldown := 0.1 }
        match scanObstacles z1.obstacleDetectionRange z1.posX z1.posZ direction obstacles
            z1.obstacleDetectionRange none 0 with
        | none => ({ z1 with isAvoidingObstacle := false }, direction)
        | some o =>
            let toObstacle := normalize2 ⟨o.posX - z1.posX, o.posZ - z1.posZ⟩
            let perpLeft : V2 := ⟨-toObstacle.z, toObstacle.x⟩
            let perpRight : V2 := ⟨toObstacle.z, -toObstacle.x⟩
            let avoidanceDir :=
              if perpLeft.dot direction > perpRight.dot direction then perpLeft else perpRight
            ({ z1 with isAvoidingObstacle := true
                       avoidanceTime := 0.3 + rnd * 0.2
                       avoidanceDirection := avoidanceDir }, avoidanceDir)

/-- A movement vector of unit length or zero, the shape every value returned
by `getAvoidanceDirection` is claimed to have. -/
def UnitOrZero (v : V2) : Prop := v.normSq = 1 ∨ v = ⟨0, 0⟩

/-- `v` points directly at the offset `w`: it is a nonzero positive scalar
multiple of `w`. -/
def PointsAt (v w : V2) : Prop :=
  (v.x ≠ 0 ∨ v.z ≠ 0) ∧ ∃ t : ℝ, 0 < t ∧ v.x = t * w.x ∧ v.z = t * w.z

end Avoid

/-! ### Supporting lemmas for the combat state machine -/

namespace Combat

lemma damageZombie_isDead (z : DZombie) (a : ℚ) :
    (damageZombie z a).1.isDead = (decide (z.health - a ≤ 0) || z.isDead) := by
  simp only [damageZombie]
  by_cases h : z.health - a ≤ 0 <;> simp [h]

lemma damageZombie_health (z : DZombie) (a : ℚ) :
    (damageZombie z a).1.health = z.health - a := by
  simp only [damageZombie]
  by_cases h : z.health - a ≤ 0 <;> simp [h]

lemma damageZombie_killed (z : DZombie) (a : ℚ) :
    (damageZombie z a).2 = decide (z.health - a ≤ 0) := by
  simp only [damageZombie]
  by_cases h : z.health - a ≤ 0 <;> simp [h]

lemma updateHitEffects_isDead (z : DZombie) (dt : ℚ) :
    (updateHitEffects z dt).isDead = z.isDead := by
  simp only [updateHitEffects]
  by_cases h : z.isHit
  · by_cases h2 : z.hitFlashTime + dt ≥ 0.2 <;> simp [h, h2]
  · simp [h]

lemma updateHitEffects_health (z : DZombie) (dt : ℚ) :
    (updateHitEffects z dt).health = z.health := by
  simp only [updateHitEffects]
  by_cases h : z.isHit
  · by_cases h2 : z.hitFlashTime + dt ≥ 0.2 <;> simp [h, h2]
  · simp [h]

lemma reachable_isDead_health {z : DZombie} (hz : ReachableZombie z) :
    z.isDead = true → z.health ≤ 0 := by
  induction hz with
  | spawn type =>
      simp [spawnZombie]
  | step _ hstep ih =>
      cases hstep with
      | damage a ha =>
          intro hdead
          rw [damageZombie_isDead] at hdead
          rw [damageZombie_health]
          rcases Bool.or_eq_true_iff.mp hdead with h | h
          · exact of_decide_eq_true h
          · have := ih h
            linarith
      | hitFx dt =>
          intro hdead
          rw [updateHitEffects_isDead] at hdead
          rw [updateHitEffects_health]
          exact ih hdead
      | deathAnim dt =>
          intro hdead
          exact ih hdead

/-- Claim C1, counterexample.  A zombie already dead (killed earlier at
health −15, death animation finished) receives a second `damageZombie` call:
the call returns `killed = true`, not `false`, and it re-runs the death branch,
resetting `deathAnimationProgress` from 1 to 0 — `damageZombie` never tests
`isDead`, so damaging an already-Dead enemy is not the claimed no-op. -/
theorem damageZombie_dead_not_noop :
    (DZombie.mk (-15) false 0 true 1).isDead = true ∧
    (damageZombie ⟨-15, false, 0, true, 1⟩ 25).2 = true ∧
    (damageZombie ⟨-15, false, 0, true, 1⟩ 25).1.deathAnimationProgress = 0 := by
  refine ⟨rfl, ?_, ?_⟩ <;> norm_num [damageZombie]

/-- Claim C1, amended.  Applying `damageZombie` to an already-Dead enemy
(whose health is ≤ 0, as the Dead invariant guarantees) with a nonnegative
damage amount never clears the Dead state, but it is not a no-op: health is
decremented further, the death branch re-runs (resetting
`deathAnimationProgress` to 0), and the call returns `killed = true` — the
no-double-kill protection lives in the callers, which skip dead zombies
(`checkZombieHit` line 371, `main.js` line 868), not in `damageZombie`. -/
theorem damageZombie_on_dead (z : DZombie) (dmg : ℚ) (_hdead : z.isDead = true)
    (hh : z.health ≤ 0) (hdmg : 0 ≤ dmg) :
    (damageZombie z dmg).1.isDead = true ∧ (damageZombie z dmg).2 = true ∧
    (damageZombie z dmg).1.health = z.health - dmg ∧
    (damageZombie z dmg).1.deathAnimationProgress = 0 := by
  have h : z.health - dmg ≤ 0 := by linarith
  refine ⟨?_, ?_, damageZombie_health z dmg, ?_⟩
  · rw [damageZombie_isDead]
    simp [h]
  · rw [damageZombie_killed]
    simp [h]
  · simp [damageZombie, h]

/-- Witness for `damageZombie_on_dead` at the concrete dead zombie of the
counterexample and damage 25. -/
theorem damageZombie_on_dead_witness :
    ((⟨-15, false, 0, true, 1⟩ : DZombie).isDead = true ∧
      (⟨-15, false, 0, true, 1⟩ : DZombie).health ≤ 0 ∧ (0 : ℚ) ≤ 25) ∧
    ((damageZombie ⟨-15, false, 0, true, 1⟩ 25).1.isDead = true ∧
      (damageZombie ⟨-15, false, 0, true, 1⟩ 25).2 = true ∧
      (damageZombie ⟨-15, false, 0, true, 1⟩ 25).1.health = (-15 : ℚ) - 25 ∧
      (damageZombie ⟨-15, false, 0, true, 1⟩ 25).1.deathAnimationProgress = 0) :=
  ⟨⟨rfl, by norm_num, by norm_num⟩,
    damageZombie_on_dead ⟨-15, false, 0, true, 1⟩ 25 rfl (by norm_num) (by norm_num)⟩

/-- Claim C7.  (i) In every reachable zombie state, `isDead = true` implies
`health ≤ 0`; (ii) whenever a `damageZombie` call drives health to ≤ 0 the
zombie is marked Dead in the same call; (iii) the Dead state is terminal: no
step of the simulation ever clears `isDead`. -/
theorem zombie_dead_invariant :
    (∀ z : DZombie, ReachableZombie z → z.isDead = true → z.health ≤ 0) ∧
    (∀ (z : DZombie) (a : ℚ),
      (damageZombie z a).1.health ≤ 0 → (damageZombie z a).1.isDead = true) ∧
    (∀ (z z' : DZombie), ZombieStep z z' → z.isDead = true → z'.isDead = true) := by
  refine ⟨fun z hz => reachable_isDead_health hz, ?_, ?_⟩
  · intro z a h
    rw [damageZombie_health] at h
    rw [damageZombie_isDead]
    simp [h]
  · intro z z' hstep hdead
    cases hstep with
    | damage a ha => rw [damageZombie_isDead]; simp [hdead]
    | hitFx dt => rw [updateHitEffects_isDead]; exact hdead
    | deathAnim dt => exact hdead

/-- Witness for `zombie_dead_invariant`: a freshly spawned regular zombie hit
for its full 100 health is reachable, Dead, and part (i) yields
`health ≤ 0`; part (iii) is applied to the concrete killing step. -/
theorem zombie_dead_invariant_witness :
    (ReachableZombie (damageZombie (spawnZombie "regular") 100).1 ∧
      (damageZombie (spawnZombie "regular") 100).1.isDead = true ∧
      (damageZombie (spawnZombie "regular") 100).1.health ≤ 0) ∧
    ((damageZombie (spawnZombie "regular") 100).1.health ≤ 0 →
      (damageZombie (spawnZombie "regular") 100).1.isDead = true) := by
  have hreach : ReachableZombie (damageZombie (spawnZombie "regular") 100).1 :=
    ReachableZombie.step (ReachableZombie.spawn "regular")
      (ZombieStep.damage (spawnZombie "regular") 100 (by norm_num))
  have hspawn : spawnZombie "regular" = ⟨100, false, 0, false, 0⟩ := by decide
  have hdead : (damageZombie (spawnZombie "regular") 100).1.isDead = true := by
    rw [damageZombie_isDead, hspawn]
    norm_num
  exact ⟨⟨hreach, hdead, zombie_dead_invariant.1 _ hreach hdead⟩,
    zombie_dead_invariant.2.1 (spawnZombie "regular") 100⟩

end Combat

namespace Player

/-- Claim C10.  `takeDamage(amount)` always leaves the player not healing (a
heal in progress is cancelled, one not in progress stays off), keeps the heal
progress (and the partially applied healing, since `cancelHealing` does not
touch `health`), and sets health to `max 0 (previous health − amount)`, so
health never drops below 0. -/
theorem takeDamage_cancels_and_clamps (p : PState) (amount : ℚ) :
    (takeDamage p amount).isHealing = false ∧
    (takeDamage p amount).health = max 0 (p.health - amount) ∧
    0 ≤ (takeDamage p amount).health ∧
    (takeDamage p amount).healProgress = p.healProgress := by
  by_cases h : p.isHealing <;> simp [takeDamage, cancelHealing, h, le_max_left]

end Player

namespace Loot

/-- Claim C9.  The loot roll spawns a health pack exactly when the
`Math.random()` draw is at most the per-type drop chance (the spawn is skipped
when `rand > dropChance`, so for a uniform draw on `[0, 1)` the spawn
probability is exactly the chance); the chances are 0.15 / 0.20 / 0.30 for
regular / runner / tank, and any type outside the table — or a missing type —
falls back to the regular-tier 0.15. -/
theorem rollLootDrop_table :
    (∀ r : ℚ, rollLootDrop (some "regular") r = true ↔ r ≤ 0.15) ∧
    (∀ r : ℚ, rollLootDrop (some "runner") r = true ↔ r ≤ 0.20) ∧
    (∀ r : ℚ, rollLootDrop (some "tank") r = true ↔ r ≤ 0.30) ∧
    (∀ t : String, t ≠ "regular" → t ≠ "runner" → t ≠ "tank" →
      dropChanceFor (some t) = 0.15) ∧
    dropChanceFor none = 0.15 ∧
    (∀ (ty : Option String) (r : ℚ), rollLootDrop ty r = true ↔ r ≤ dropChanceFor ty) := by
  refine ⟨?_, ?_, ?_, ?_, ?_, ?_⟩
  · intro r
    simp [rollLootDrop, dropChanceFor, DROP_CHANCES, not_lt]
  · intro r
    simp [rollLootDrop, dropChanceFor, DROP_CHANCES, not_lt]
  · intro r
    simp [rollLootDrop, dropChanceFor, DROP_CHANCES, not_lt]
  · intro t h1 h2 h3
    simp [dropChanceFor, DROP_CHANCES, h1, h2, h3]
  · simp [dropChanceFor, DROP_CHANCES]
  · intro ty r
    simp [rollLootDrop, not_lt]

/-- Witness for `rollLootDrop_table`: the unknown type `"boss"` falls back to
the regular-tier chance, and a draw of 0.1 under that chance spawns. -/
theorem rollLootDrop_table_witness :
    dropChanceFor (some "boss") = 0.15 ∧ rollLootDrop (some "boss") 0.1 = true :=
  ⟨rollLootDrop_table.2.2.2.1 "boss" (by decide) (by decide) (by decide),
    (rollLootDrop_table.2.2.2.2.2 (some "boss") 0.1).mpr
      (by rw [rollLootDrop_table.2.2.2.1 "boss" (by decide) (by decide) (by decide)]; norm_num)⟩

end Loot

namespace Wave

/-- Claim C5.  `startNextWave` grows the configuration table by exactly one
synthesized entry — last-entry regular ×1.2 floored, tank ×1.2 floored +1,
runner ×1.3 floored +2 — precisely when the incremented wave counter exceeds
the table length (the authored table has 7 entries), leaves the table
untouched otherwise, and in every case the table never shrinks. -/
theorem startNextWave_table_growth (w : WaveState) (now : ℚ) :
    waveConfigurations0.length = 7 ∧
    (w.waveConfigurations.length < w.currentWave + 1 →
      (startNextWave w now).waveConfigurations =
        w.waveConfigurations ++
          [⟨⌊((w.waveConfigurations.getLast?.getD ⟨0, 0, 0⟩).regularZombies : ℚ) * 1.2⌋,
            ⌊((w.waveConfigurations.getLast?.getD ⟨0, 0, 0⟩).tankZombies : ℚ) * 1.2⌋ + 1,
            ⌊((w.waveConfigurations.getLast?.getD ⟨0, 0, 0⟩).runnerZombies : ℚ) * 1.3⌋ + 2⟩] ∧
      (startNextWave w now).waveConfigurations.length = w.waveConfigurations.length + 1) ∧
    (¬ w.waveConfigurations.length < w.currentWave + 1 →
      (startNextWave w now).waveConfigurations = w.waveConfigurations) ∧
    w.waveConfigurations.length ≤ (startNextWave w now).waveConfigurations.length := by
  refine ⟨rfl, ?_, ?_, ?_⟩
  · intro h
    simp [startNextWave, nextWaveConfig, h]
  · intro h
    simp [startNextWave, h]
  · by_cases h : w.waveConfigurations.length < w.currentWave + 1 <;>
      simp [startNextWave, h]

/-- Witness for `startNextWave_table_growth`: starting the 8th wave on the
authored 7-entry table appends one entry, giving 8. -/
theorem startNextWave_table_growth_witness :
    (WaveState.mk waveConfigurations0 7 true 0 0).waveConfigurations.length <
      (WaveState.mk waveConfigurations0 7 true 0 0).currentWave + 1 ∧
    (startNextWave ⟨waveConfigurations0, 7, true, 0, 0⟩ 0).waveConfigurations.length =
      (WaveState.mk waveConfigurations0 7 true 0 0).waveConfigurations.length + 1 :=
  ⟨by decide, ((startNextWave_table_growth ⟨waveConfigurations0, 7, true, 0, 0⟩ 0).2.1
    (by decide)).2⟩

lemma waveUpdate_inactive {w : WaveState} (now : ℚ) (zs : List WZombie)
    (h : w.waveActive = false) : waveUpdate w now zs = (w, false) := by
  simp [waveUpdate, h]

lemma waveUpdate_deactivates (w : WaveState) (now : ℚ) (zs : List WZombie) :
    (waveUpdate w now zs).2 = true → (waveUpdate w now zs).1.waveActive = false := by
  by_cases ha : w.waveActive = false
  · simp [waveUpdate, ha]
  · by_cases hc : livingCount zs = 0 <;> by_cases hd : now - w.waveStartTime > 5000 <;>
      by_cases hz : w.zombiesRemaining = (livingCount zs : ℤ) <;>
      simp [waveUpdate, ha, hc, hd, hz]

lemma waveUpdate_active_mono (w : WaveState) (now : ℚ) (zs : List WZombie) :
    (waveUpdate w now zs).1.waveActive = true → w.waveActive = true := by
  by_cases ha : w.waveActive = false
  · simp [waveUpdate, ha]
  · by_cases hc : livingCount zs = 0 <;> by_cases hd : now - w.waveStartTime > 5000 <;>
      by_cases hz : w.zombiesRemaining = (livingCount zs : ℤ) <;>
      simp [waveUpdate, ha, hc, hd, hz]

lemma runWaveUpdates_inactive {w : WaveState} (h : w.waveActive = false) :
    ∀ l : List (ℚ × List WZombie), runWaveUpdates w l = 0 := by
  intro l
  induction l with
  | nil => rfl
  | cons hd tl ih =>
      obtain ⟨now, zs⟩ := hd
      simp [runWaveUpdates, waveUpdate_inactive now zs h, ih]

lemma runWaveUpdates_le_one : ∀ (l : List (ℚ × List WZombie)) (w : WaveState),
    runWaveUpdates w l ≤ 1 := by
  intro l
  induction l with
  | nil => intro w; simp [runWaveUpdates]
  | cons hd tl ih =>
      intro w
      obtain ⟨now, zs⟩ := hd
      by_cases hb : (waveUpdate w now zs).2 = true
      · have hoff := waveUpdate_deactivates w now zs hb
        simp [runWaveUpdates, hb, runWaveUpdates_inactive hoff tl]
      · simp only [runWaveUpdates, Bool.not_eq_true] at hb ⊢
        rw [hb]
        simpa using ih (waveUpdate w now zs).1

/-- Claim C2.  `WaveManager.update()` returns `true` exactly on the calls where
the wave is active, no non-Dead zombie remains, and the elapsed time since the
wave started strictly exceeds the 5000 ms floor; returning `true` clears
`waveActive`, `update` never re-activates a wave, so over any sequence of
update calls at most one returns `true`; only `startNextWave` re-arms the
flag. -/
theorem waveUpdate_true_once :
    (∀ (w : WaveState) (now : ℚ) (zs : List WZombie),
      (waveUpdate w now zs).2 = true ↔
        w.waveActive = true ∧ livingCount zs = 0 ∧ now - w.waveStartTime > 5000) ∧
    (∀ (w : WaveState) (now : ℚ) (zs : List WZombie),
      (waveUpdate w now zs).2 = true → (waveUpdate w now zs).1.waveActive = false) ∧
    (∀ (w : WaveState) (now : ℚ) (zs : List WZombie),
      (waveUpdate w now zs).1.waveActive = true → w.waveActive = true) ∧
    (∀ (w : WaveState) (l : List (ℚ × List WZombie)), runWaveUpdates w l ≤ 1) ∧
    (∀ (w : WaveState) (now : ℚ), (startNextWave w now).waveActive = true) := by
  refine ⟨?_, waveUpdate_deactivates, waveUpdate_active_mono,
    fun w l => runWaveUpdates_le_one l w, fun w now => rfl⟩
  intro w now zs
  by_cases ha : w.waveActive = false
  · simp [waveUpdate, ha]
  · by_cases hc : livingCount zs = 0 <;> by_cases hd : now - w.waveStartTime > 5000 <;>
      by_cases hz : w.zombiesRemaining = (livingCount zs : ℤ) <;>
      simp [waveUpdate, ha, hc, hd, hz]

/-- Witness for `waveUpdate_true_once`: a wave started at time 0, updated at
6000 ms with an empty roster, reports completion; and a three-tick run — one
with a living zombie, the completing one, one after — flags exactly once. -/
theorem waveUpdate_true_once_witness :
    (waveUpdate ⟨waveConfigurations0, 1, true, 5, 0⟩ 6000 []).2 = true ∧
    runWaveUpdates ⟨waveConfigurations0, 1, true, 5, 0⟩
      [(1000, [⟨0, 40, "regular", false⟩]), (6000, []), (7000, [])] ≤ 1 :=
  ⟨(waveUpdate_true_once.1 ⟨waveConfigurations0, 1, true, 5, 0⟩ 6000 []).mpr
      ⟨rfl, rfl, by norm_num⟩,
    waveUpdate_true_once.2.2.2.1 ⟨waveConfigurations0, 1, true, 5, 0⟩
      [(1000, [⟨0, 40, "regular", false⟩]), (6000, []), (7000, [])]⟩

lemma spawnOne_distSq (minD maxD : ℚ) (h0 : 0 ≤ minD) (hmm : minD ≤ maxD)
    (t : String) (r : SpawnRand) (hv : r.Valid) :
    minD ^ 2 ≤ (spawnOne minD maxD t r).posX ^ 2 + (spawnOne minD maxD t r).posZ ^ 2 ∧
      (spawnOne minD maxD t r).posX ^ 2 + (spawnOne minD maxD t r).posZ ^ 2 ≤ maxD ^ 2 := by
  obtain ⟨hc, hd0, hd1⟩ := hv
  simp only [spawnOne, getSpawnPosition]
  have hdlo : minD ≤ minD + r.dist * (maxD - minD) := by nlinarith
  have hdhi : minD + r.dist * (maxD - minD) ≤ maxD := by nlinarith
  have hsq : (r.c * (minD + r.dist * (maxD - minD))) ^ 2 +
      (r.s * (minD + r.dist * (maxD - minD))) ^ 2 =
      (minD + r.dist * (maxD - minD)) ^ 2 := by
    have : (r.c * (minD + r.dist * (maxD - minD))) ^ 2 +
        (r.s * (minD + r.dist * (maxD - minD))) ^ 2 =
        (r.c * r.c + r.s * r.s) * (minD + r.dist * (maxD - minD)) ^ 2 := by ring
    rw [this, hc, one_mul]
  constructor
  · rw [hsq]
    nlinarith
  · rw [hsq]
    nlinarith

/-- Claim C6.  `spawnWaveZombies` creates exactly
`regularZombies + tankZombies + runnerZombies` zombies regardless of the stale
roster it clears, and — whenever the random draws are genuine
(cos/sin on the unit circle, `Math.random()` in `[0, 1)`) — every spawned
zombie's squared distance from the origin lies in the squared band of its
type: regular `[40², 60²]`, tank `[50², 70²]`, runner `[35², 55²]` (squared
distances are compared since positions are built from an exact point on the
unit circle). -/
theorem spawnWaveZombies_counts_and_annulus (cfg : WaveConfig)
    (roster : List WZombie) (rands : ℕ → SpawnRand) (hr : ∀ i, (rands i).Valid) :
    (spawnWaveZombies cfg roster rands).length =
      cfg.regularZombies.toNat + cfg.tankZombies.toNat + cfg.runnerZombies.toNat ∧
    ∀ z ∈ spawnWaveZombies cfg roster rands,
      (z.ztype = "regular" →
        1600 ≤ z.posX ^ 2 + z.posZ ^ 2 ∧ z.posX ^ 2 + z.posZ ^ 2 ≤ 3600) ∧
      (z.ztype = "tank" →
        2500 ≤ z.posX ^ 2 + z.posZ ^ 2 ∧ z.posX ^ 2 + z.posZ ^ 2 ≤ 4900) ∧
      (z.ztype = "runner" →
        1225 ≤ z.posX ^ 2 + z.posZ ^ 2 ∧ z.posX ^ 2 + z.posZ ^ 2 ≤ 3025) := by
  constructor
  · simp [spawnWaveZombies]
    omega
  · intro z hz
    simp only [spawnWaveZombies, List.mem_append, List.mem_map, List.mem_range] at hz
    rcases hz with (⟨i, _, rfl⟩ | ⟨i, _, rfl⟩) | ⟨i, _, rfl⟩
    · refine ⟨fun _ => ?_, fun h => ?_, fun h => ?_⟩
      · have := spawnOne_distSq 40 60 (by norm_num) (by norm_num) "regular" _ (hr i)
        constructor <;> [nlinarith [this.1]; nlinarith [this.2]]
      · simp [spawnOne] at h
      · simp [spawnOne] at h
    · refine ⟨fun h => ?_, fun _ => ?_, fun h => ?_⟩
      · simp [spawnOne] at h
      · have := spawnOne_distSq 50 70 (by norm_num) (by norm_num) "tank" _
          (hr (cfg.regularZombies.toNat + i))
        constructor <;> [nlinarith [this.1]; nlinarith [this.2]]
      · simp [spawnOne] at h
    · refine ⟨fun h => ?_, fun h => ?_, fun _ => ?_⟩
      · simp [spawnOne] at h
      · simp [spawnOne] at h
      · have := spawnOne_distSq 35 55 (by norm_num) (by norm_num) "runner" _
          (hr (cfg.regularZombies.toNat + cfg.tankZombies.toNat + i))
        constructor <;> [nlinarith [this.1]; nlinarith [this.2]]

/-- Witness for `spawnWaveZombies_counts_and_annulus`: one zombie of each type
spawned with the draw `(cos, sin, rand) = (1, 0, 0)`, which is valid, gives a
roster of three. -/
theorem spawnWaveZombies_counts_and_annulus_witness :
    (∀ i : ℕ, (fun _ : ℕ => SpawnRand.mk 1 0 0) i |>.Valid) ∧
    (spawnWaveZombies ⟨1, 1, 1⟩ [] (fun _ => ⟨1, 0, 0⟩)).length =
      (1 : ℤ).toNat + (1 : ℤ).toNat + (1 : ℤ).toNat :=
  have hv : ∀ i : ℕ, (fun _ : ℕ => SpawnRand.mk 1 0 0) i |>.Valid :=
    fun _ => ⟨by norm_num, by norm_num, by norm_num⟩
  ⟨hv, (spawnWaveZombies_counts_and_annulus ⟨1, 1, 1⟩ [] (fun _ => ⟨1, 0, 0⟩) hv).1⟩

end Wave


namespace Hit

lemma hitFold_none (camPos forward : V3) :
    ∀ l : List HZombie, (∀ z ∈ l, ¬ Qualifies camPos forward z) →
      hitFold camPos forward l none = none := by
  intro l
  induction l with
  | nil => intro _; rfl
  | cons z rest ih =>
      intro hq
      have hrest : ∀ z' ∈ rest, ¬ Qualifies camPos forward z' :=
        fun z' hz' => hq z' (List.mem_cons_of_mem z hz')
      have hz : ¬ Qualifies camPos forward z := hq z (List.mem_cons_self z rest)
      by_cases hd : z.isDead
      · have hstep : hitFold camPos forward (z :: rest) none =
            hitFold camPos forward rest none := by
          simp [hitFold, hd]
        rw [hstep]
        exact ih hrest
      · have hdf : z.isDead = false := by simpa using hd
        by_cases hr : zombieDistance camPos z ≤ z.hitRange
        · have hdot : ¬ forward.dot (normalize3 (zombieDelta camPos z)) > 0.7 :=
            fun hdot => hz ⟨hdf, hr, hdot⟩
          have hstep : hitFold camPos forward (z :: rest) none =
              hitFold camPos forward rest none := by
            simp [hitFold, hd, hr, hdot]
          rw [hstep]
          exact ih hrest
        · have hstep : hitFold camPos forward (z :: rest) none =
              hitFold camPos forward rest none := by
            simp [hitFold, hd, hr]
          rw [hstep]
          exact ih hrest

lemma hitFold_spec (camPos forward : V3) :
    ∀ (l : List HZombie) (acc : Option (HZombie × ℝ)),
      (hitFold camPos forward l acc = none →
        acc = none ∧ ∀ z ∈ l, ¬ Qualifies camPos forward z) ∧
      (∀ zr dr, hitFold camPos forward l acc = some (zr, dr) →
        (acc = some (zr, dr) ∨
          (zr ∈ l ∧ Qualifies camPos forward zr ∧ dr = zombieDistance camPos zr)) ∧
        (∀ b, acc = some b → dr ≤ b.2) ∧
        (∀ z' ∈ l, Qualifies camPos forward z' → dr ≤ zombieDistance camPos z')) := by
  intro l
  induction l with
  | nil =>
      intro acc
      constructor
      · intro h
        exact ⟨h, by simp⟩
      · intro zr dr h
        have hacc : acc = some (zr, dr) := h
        refine ⟨Or.inl hacc, fun b hb => ?_, by simp⟩
        rw [hacc] at hb
        injection hb with hb2
        subst hb2
        exact le_rfl
  | cons z rest ih =>
      intro acc
      -- the four step shapes, depending on how z fares in the filter
      by_cases hd : z.isDead
      case pos =>
        have hnq : ¬ Qualifies camPos forward z := by
          simp [Qualifies, hd]
        have hstep : hitFold camPos forward (z :: rest) acc =
            hitFold camPos forward rest acc := by
          simp [hitFold, hd]
        rw [hstep]
        constructor
        · intro h
          obtain ⟨hacc, hrest⟩ := (ih acc).1 h
          refine ⟨hacc, fun z' hz' => ?_⟩
          rcases List.mem_cons.mp hz' with rfl | hz'
          · exact hnq
          · exact hrest z' hz'
        · intro zr dr h
          obtain ⟨hA, hB, hC⟩ := (ih acc).2 zr dr h
          refine ⟨?_, hB, fun z' hz' hq => ?_⟩
          · rcases hA with hA | ⟨hm, hq, hdd⟩
            · exact Or.inl hA
            · exact Or.inr ⟨List.mem_cons_of_mem z hm, hq, hdd⟩
          · rcases List.mem_cons.mp hz' with rfl | hz'
            · exact absurd hq hnq
            · exact hC z' hz' hq
      case neg =>
      have hdf : z.isDead = false := by simpa using hd
      by_cases hr : zombieDistance camPos z ≤ z.hitRange
      case neg =>
        have hnq : ¬ Qualifies camPos forward z := fun hq => hr hq.2.1
        have hstep : hitFold camPos forward (z :: rest) acc =
            hitFold camPos forward rest acc := by
          simp [hitFold, hd, hr]
        rw [hstep]
        constructor
        · intro h
          obtain ⟨hacc, hrest⟩ := (ih acc).1 h
          refine ⟨hacc, fun z' hz' => ?_⟩
          rcases List.mem_cons.mp hz' with rfl | hz'
          · exact hnq
          · exact hrest z' hz'
        · intro zr dr h
          obtain ⟨hA, hB, hC⟩ := (ih acc).2 zr dr h
          refine ⟨?_, hB, fun z' hz' hq => ?_⟩
          · rcases hA with hA | ⟨hm, hq, hdd⟩
            · exact Or.inl hA
            · exact Or.inr ⟨List.mem_cons_of_mem z hm, hq, hdd⟩
          · rcases List.mem_cons.mp hz' with rfl | hz'
            · exact absurd hq hnq
            · exact hC z' hz' hq
      case pos =>
      by_cases hdot : forward.dot (normalize3 (zombieDelta camPos z)) > 0.7
      case neg =>
        have hnq : ¬ Qualifies camPos forward z := fun hq => hdot hq.2.2
        have hstep : hitFold camPos forward (z :: rest) acc =
            hitFold camPos forward rest acc := by
          simp [hitFold, hd, hr, hdot]
        rw [hstep]
        constructor
        · intro h
          obtain ⟨hacc, hrest⟩ := (ih acc).1 h
          refine ⟨hacc, fun z' hz' => ?_⟩
          rcases List.mem_cons.mp hz' with rfl | hz'
          · exact hnq
          · exact hrest z' hz'
        · intro zr dr h
          obtain ⟨hA, hB, hC⟩ := (ih acc).2 zr dr h
          refine ⟨?_, hB, fun z' hz' hq => ?_⟩
          · rcases hA with hA | ⟨hm, hq, hdd⟩
            · exact Or.inl hA
            · exact Or.inr ⟨List.mem_cons_of_mem z hm, hq, hdd⟩
          · rcases List.mem_cons.mp hz' with rfl | hz'
            · exact absurd hq hnq
            · exact hC z' hz' hq
      case pos =>
      have hq : Qualifies camPos forward z := ⟨hdf, hr, hdot⟩
      rcases hacc2 : acc with _ | b
      · -- empty accumulator and z passes every test: z is recorded
        have hstep : hitFold camPos forward (z :: rest) none =
            hitFold camPos forward rest (some (z, zombieDistance camPos z)) := by
          simp [hitFold, hd, hr, hdot]
        rw [hstep]
        constructor
        · intro h
          obtain ⟨hacc', _⟩ := (ih _).1 h
          cases hacc'
        · intro zr dr h
          obtain ⟨hA, hB, hC⟩ := (ih _).2 zr dr h
          have hdr : dr ≤ zombieDistance camPos z := by
            simpa using hB (z, zombieDistance camPos z) rfl
          refine ⟨?_, by simp, fun z' hz' hq' => ?_⟩
          · rcases hA with hA | ⟨hm, hq', hdd⟩
            · injection hA with hA2
              injection hA2 with hA3 hA4
              exact Or.inr ⟨hA3 ▸ List.mem_cons_self z rest, hA3 ▸ hq, by rw [← hA4, hA3]⟩
            · exact Or.inr ⟨List.mem_cons_of_mem z hm, hq', hdd⟩
          · rcases List.mem_cons.mp hz' with rfl | hz'
            · exact hdr
            · exact hC z' hz' hq'
      · by_cases hcl : zombieDistance camPos z < b.2
        · -- strictly closer than the stored best: z replaces it
          have hstep : hitFold camPos forward (z :: rest) (some b) =
              hitFold camPos forward rest (some (z, zombieDistance camPos z)) := by
            simp [hitFold, hd, hr, hdot, hcl]
          rw [hstep]
          constructor
          · intro h
            obtain ⟨hacc', _⟩ := (ih _).1 h
            cases hacc'
          · intro zr dr h
            obtain ⟨hA, hB, hC⟩ := (ih _).2 zr dr h
            have hdr : dr ≤ zombieDistance camPos z := by
              simpa using hB (z, zombieDistance camPos z) rfl
            refine ⟨?_, fun b' hb' => ?_, fun z' hz' hq' => ?_⟩
            · rcases hA with hA | ⟨hm, hq', hdd⟩
              · injection hA with hA2
                injection hA2 with hA3 hA4
                exact Or.inr ⟨hA3 ▸ List.mem_cons_self z rest, hA3 ▸ hq, by rw [← hA4, hA3]⟩
              · exact Or.inr ⟨List.mem_cons_of_mem z hm, hq', hdd⟩
            · injection hb' with hb2
              subst hb2
              exact le_trans hdr (le_of_lt hcl)
            · rcases List.mem_cons.mp hz' with rfl | hz'
              · exact hdr
              · exact hC z' hz' hq'
        · -- not strictly closer: the stored best survives
          have hstep : hitFold camPos forward (z :: rest) (some b) =
              hitFold camPos forward rest (some b) := by
            simp [hitFold, hd, hr, hdot, hcl]
          rw [hstep]
          constructor
          · intro h
            obtain ⟨hacc', _⟩ := (ih _).1 h
            cases hacc'
          · intro zr dr h
            obtain ⟨hA, hB, hC⟩ := (ih _).2 zr dr h
            have hdrb : dr ≤ b.2 := hB b rfl
            refine ⟨?_, fun b' hb' => ?_, fun z' hz' hq' => ?_⟩
            · rcases hA with hA | ⟨hm, hq', hdd⟩
              · exact Or.inl hA
              · exact Or.inr ⟨List.mem_cons_of_mem z hm, hq', hdd⟩
            · injection hb' with hb2
              subst hb2
              exact hdrb
            · rcases List.mem_cons.mp hz' with rfl | hz'
              · exact le_trans hdrb (not_lt.mp hcl)
              · exact hC z' hz' hq'

/-- Claim C3.  `checkZombieHit` returns at most one zombie (an `Option`), and
a returned zombie is in the roster, alive, within its own `hitRange` of the
camera, inside the forward hit cone (dot product of the normalized
camera-to-zombie vector with the normalized forward vector strictly above
0.7 ≈ cos 45°), and no other qualifying zombie is strictly nearer; when no
zombie qualifies the function returns `none`. -/
theorem checkZombieHit_spec (camPos forward0 : V3) (zombies : List HZombie) :
    (∀ z, checkZombieHit camPos forward0 zombies = some z →
      z ∈ zombies ∧ Qualifies camPos (normalize3 forward0) z ∧
      ∀ z' ∈ zombies, Qualifies camPos (normalize3 forward0) z' →
        zombieDistance camPos z ≤ zombieDistance camPos z') ∧
    ((∀ z ∈ zombies, ¬ Qualifies camPos (normalize3 forward0) z) →
      checkZombieHit camPos forward0 zombies = none) := by
  constructor
  · intro z hz
    unfold checkZombieHit at hz
    rcases Option.map_eq_some'.mp hz with ⟨⟨zz, dr⟩, hfold, hfst⟩
    simp only at hfst
    subst hfst
    obtain ⟨hA, _, hC⟩ :=
      (hitFold_spec camPos (normalize3 forward0) zombies none).2 zz dr hfold
    rcases hA with hA | ⟨hm, hq, hdd⟩
    · cases hA
    · refine ⟨hm, hq, fun z' hz' hq' => ?_⟩
      rw [← hdd]
      exact hC z' hz' hq'
  · intro h
    show Option.map Prod.fst (hitFold camPos (normalize3 forward0) zombies none) = none
    rw [hitFold_none camPos (normalize3 forward0) zombies h]
    rfl

lemma checkZombieHit_eval :
    checkZombieHit ⟨0, 1, 0⟩ ⟨0, 0, -1⟩ [⟨0, 0, -3, 5, false⟩] =
      some ⟨0, 0, -3, 5, false⟩ := by
  have h9 : Real.sqrt 9 = 3 := by
    rw [show (9 : ℝ) = 3 ^ 2 by norm_num]
    exact Real.sqrt_sq (by norm_num)
  unfold checkZombieHit hitFold normalize3 zombieDistance zombieDelta V3.length V3.normSq V3.dot
  norm_num [h9]
  exact ⟨3, rfl⟩

/-- Witness for `checkZombieHit_spec`: a living zombie three units straight
ahead of the camera (hit range 5) is returned, and the returned zombie enjoys
all the claimed properties. -/
theorem checkZombieHit_spec_witness :
    checkZombieHit ⟨0, 1, 0⟩ ⟨0, 0, -1⟩ [⟨0, 0, -3, 5, false⟩] =
      some ⟨0, 0, -3, 5, false⟩ ∧
    (HZombie.mk 0 0 (-3) 5 false ∈ [HZombie.mk 0 0 (-3) 5 false] ∧
      Qualifies ⟨0, 1, 0⟩ (normalize3 ⟨0, 0, -1⟩) ⟨0, 0, -3, 5, false⟩ ∧
      ∀ z' ∈ [HZombie.mk 0 0 (-3) 5 false],
        Qualifies ⟨0, 1, 0⟩ (normalize3 ⟨0, 0, -1⟩) z' →
          zombieDistance ⟨0, 1, 0⟩ ⟨0, 0, -3, 5, false⟩ ≤ zombieDistance ⟨0, 1, 0⟩ z') :=
  ⟨checkZombieHit_eval,
    (checkZombieHit_spec ⟨0, 1, 0⟩ ⟨0, 0, -1⟩ [⟨0, 0, -3, 5, false⟩]).1
      ⟨0, 0, -3, 5, false⟩ checkZombieHit_eval⟩

end Hit

namespace Avoid

lemma normSq_nonneg (v : V2) : 0 ≤ v.normSq := by
  have hx := mul_self_nonneg v.x
  have hz := mul_self_nonneg v.z
  unfold V2.normSq
  linarith

lemma normSq_eq_zero {v : V2} (h : v.normSq = 0) : v = ⟨0, 0⟩ := by
  obtain ⟨x, z⟩ := v
  simp only [V2.normSq] at h
  simp only [V2.mk.injEq]
  constructor <;> nlinarith [mul_self_nonneg x, mul_self_nonneg z]

lemma normalize2_unitOrZero (v : V2) : UnitOrZero (normalize2 v) := by
  unfold normalize2
  by_cases h : v.normSq = 0
  · rw [if_pos h]
    exact Or.inr (normSq_eq_zero h)
  · rw [if_neg h]
    left
    have h0 : 0 ≤ v.normSq := normSq_nonneg v
    have hpos : 0 < v.normSq := lt_of_le_of_ne h0 (Ne.symm h)
    have hs : Real.sqrt v.normSq * Real.sqrt v.normSq = v.normSq := Real.mul_self_sqrt h0
    have hsne : Real.sqrt v.normSq ≠ 0 := ne_of_gt (Real.sqrt_pos.mpr hpos)
    show (v.x / Real.sqrt v.normSq) * (v.x / Real.sqrt v.normSq) +
        (v.z / Real.sqrt v.normSq) * (v.z / Real.sqrt v.normSq) = 1
    field_simp
    unfold V2.normSq
    ring

lemma perp_dot_self (w : V2) :
    V2.dot ⟨-(normalize2 w).z, (normalize2 w).x⟩ w = 0 ∧
    V2.dot ⟨(normalize2 w).z, -(normalize2 w).x⟩ w = 0 := by
  unfold normalize2
  by_cases h : w.normSq = 0
  · rw [if_pos h]
    have hw := normSq_eq_zero h
    rw [hw]
    simp [V2.dot]
  · rw [if_neg h]
    constructor <;> simp only [V2.dot] <;> ring

lemma perp_normSq (a : V2) :
    V2.normSq ⟨-a.z, a.x⟩ = a.normSq ∧ V2.normSq ⟨a.z, -a.x⟩ = a.normSq := by
  unfold V2.normSq
  constructor <;> ring

lemma not_pointsAt_of_dot_eq_zero {v w : V2} (h : v.dot w = 0) : ¬ PointsAt v w := by
  rintro ⟨hvne, t, ht, hx, hz⟩
  have hw : w.x ≠ 0 ∨ w.z ≠ 0 := by
    rcases hvne with hv | hv
    · left
      intro hwx
      rw [hwx, mul_zero] at hx
      exact hv hx
    · right
      intro hwz
      rw [hwz, mul_zero] at hz
      exact hv hz
  have hdot : v.dot w = t * (w.x * w.x + w.z * w.z) := by
    unfold V2.dot
    rw [hx, hz]
    ring
  have hpos : 0 < w.x * w.x + w.z * w.z := by
    rcases hw with hw | hw <;>
      nlinarith [mul_self_nonneg w.x, mul_self_nonneg w.z, mul_self_pos.mpr hw]
  rw [hdot] at h
  nlinarith

lemma gAD_cached {z : AvState} (target : V2) (obstacles : List Obstacle) (rnd : ℝ)
    (h1 : z.isAvoidingObstacle = true ∧ z.avoidanceTime > 0) :
    getAvoidanceDirection z target obstacles rnd = (z, z.avoidanceDirection) := by
  simp only [getAvoidanceDirection]
  rw [if_pos h1]

lemma gAD_zero_dir {z : AvState} (target : V2) (obstacles : List Obstacle) (rnd : ℝ)
    (h1 : ¬ (z.isAvoidingObstacle = true ∧ z.avoidanceTime > 0))
    (h2 : (V2.mk (target.x - z.posX) (target.z - z.posZ)).normSq = 0) :
    getAvoidanceDirection z target obstacles rnd =
      (z, ⟨target.x - z.posX, target.z - z.posZ⟩) := by
  simp only [getAvoidanceDirection]
  rw [if_neg h1, if_pos h2]

lemma gAD_cooldown {z : AvState} (target : V2) (obstacles : List Obstacle) (rnd : ℝ)
    (h1 : ¬ (z.isAvoidingObstacle = true ∧ z.avoidanceTime > 0))
    (h2 : ¬ (V2.mk (target.x - z.posX) (target.z - z.posZ)).normSq = 0)
    (h3 : z.pathfindCooldown > 0) :
    getAvoidanceDirection z target obstacles rnd =
      (z, normalize2 ⟨target.x - z.posX, target.z - z.posZ⟩) := by
  simp only [getAvoidanceDirection]
  rw [if_neg h1, if_neg h2, if_pos h3]

lemma gAD_no_blocker {z : AvState} (target : V2) (obstacles : List Obstacle) (rnd : ℝ)
    (h1 : ¬ (z.isAvoidingObstacle = true ∧ z.avoidanceTime > 0))
    (h2 : ¬ (V2.mk (target.x - z.posX) (target.z - z.posZ)).normSq = 0)
    (h3 : ¬ z.pathfindCooldown > 0)
    (hscan : scanObstacles z.obstacleDetectionRange z.posX z.posZ
        (normalize2 ⟨target.x - z.posX, target.z - z.posZ⟩) obstacles
        z.obstacleDetectionRange none 0 = none) :
    (getAvoidanceDirection z target obstacles rnd).2 =
      normalize2 ⟨target.x - z.posX, target.z - z.posZ⟩ := by
  simp only [getAvoidanceDirection]
  rw [if_neg h1, if_neg h2, if_neg h3, hscan]

lemma gAD_blocker {z : AvState} (target : V2) (obstacles : List Obstacle) (rnd : ℝ)
    (h1 : ¬ (z.isAvoidingObstacle = true ∧ z.avoidanceTime > 0))
    (h2 : ¬ (V2.mk (target.x - z.posX) (target.z - z.posZ)).normSq = 0)
    (h3 : ¬ z.pathfindCooldown > 0) (o : Obstacle)
    (hscan : scanObstacles z.obstacleDetectionRange z.posX z.posZ
        (normalize2 ⟨target.x - z.posX, target.z - z.posZ⟩) obstacles
        z.obstacleDetectionRange none 0 = some o) :
    (getAvoidanceDirection z target obstacles rnd).2 =
      ⟨-(normalize2 ⟨o.posX - z.posX, o.posZ - z.posZ⟩).z,
        (normalize2 ⟨o.posX - z.posX, o.posZ - z.posZ⟩).x⟩ ∨
    (getAvoidanceDirection z target obstacles rnd).2 =
      ⟨(normalize2 ⟨o.posX - z.posX, o.posZ - z.posZ⟩).z,
        -(normalize2 ⟨o.posX - z.posX, o.posZ - z.posZ⟩).x⟩ := by
  simp only [getAvoidanceDirection]
  rw [if_neg h1, if_neg h2, if_neg h3, hscan]
  dsimp only
  split_ifs
  · exact Or.inl rfl
  · exact Or.inr rfl

/-- Claim C4, amended.  The vector returned by `getAvoidanceDirection` is
unit-length or zero, provided the cached avoidance direction has that shape
(as every value the function itself caches does); and on the calls that
actually run the obstacle scan and select a blocker, the returned vector is
perpendicular to the enemy→blocker offset, so it never points directly at
that blocker.  The original claim's unconditional no-pointing guarantee is
false: while the 0.1 s scan cooldown is pending — and for obstacles the scan
cannot see (beyond `obstacleDetectionRange`) — the function returns the
direct normalized direction, which can point straight at a blocking obstacle
within one radius-sum (see the counterexample). -/
theorem getAvoidanceDirection_unit_and_detour (z : AvState) (target : V2)
    (obstacles : List Obstacle) (rnd : ℝ)
    (hcache : UnitOrZero z.avoidanceDirection) :
    UnitOrZero (getAvoidanceDirection z target obstacles rnd).2 ∧
    (∀ o : Obstacle,
      ¬ (z.isAvoidingObstacle = true ∧ z.avoidanceTime > 0) →
      ¬ z.pathfindCooldown > 0 →
      scanObstacles z.obstacleDetectionRange z.posX z.posZ
          (normalize2 ⟨target.x - z.posX, target.z - z.posZ⟩) obstacles
          z.obstacleDetectionRange none 0 = some o →
      (getAvoidanceDirection z target obstacles rnd).2.dot
          ⟨o.posX - z.posX, o.posZ - z.posZ⟩ = 0 ∧
      ¬ PointsAt (getAvoidanceDirection z target obstacles rnd).2
          ⟨o.posX - z.posX, o.posZ - z.posZ⟩) := by
  by_cases h1 : z.isAvoidingObstacle = true ∧ z.avoidanceTime > 0
  · rw [gAD_cached target obstacles rnd h1]
    exact ⟨hcache, fun o hnc _ _ => absurd h1 hnc⟩
  · by_cases h2 : (V2.mk (target.x - z.posX) (target.z - z.posZ)).normSq = 0
    · rw [gAD_zero_dir target obstacles rnd h1 h2]
      have hz0 : V2.mk (target.x - z.posX) (target.z - z.posZ) = ⟨0, 0⟩ := normSq_eq_zero h2
      refine ⟨Or.inr hz0, fun o hnc hcd hscan => ?_⟩
      have hdot0 : V2.dot (⟨target.x - z.posX, target.z - z.posZ⟩ : V2)
          ⟨o.posX - z.posX, o.posZ - z.posZ⟩ = 0 := by
        rw [hz0]
        simp [V2.dot]
      exact ⟨hdot0, not_pointsAt_of_dot_eq_zero hdot0⟩
    · by_cases h3 : z.pathfindCooldown > 0
      · rw [gAD_cooldown target obstacles rnd h1 h2 h3]
        exact ⟨normalize2_unitOrZero _, fun o hnc hcd hscan => absurd h3 hcd⟩
      · rcases hscan0 : scanObstacles z.obstacleDetectionRange z.posX z.posZ
            (normalize2 ⟨target.x - z.posX, target.z - z.posZ⟩) obstacles
            z.obstacleDetectionRange none 0 with _ | o0
        · rw [gAD_no_blocker target obstacles rnd h1 h2 h3 hscan0]
          refine ⟨normalize2_unitOrZero _, fun o hnc hcd hscan => ?_⟩
          exact Option.noConfusion hscan
        · have hb := gAD_blocker target obstacles rnd h1 h2 h3 o0 hscan0
          have hdot0 : (getAvoidanceDirection z target obstacles rnd).2.dot
              ⟨o0.posX - z.posX, o0.posZ - z.posZ⟩ = 0 := by
            rcases hb with hb | hb <;> rw [hb]
            · exact (perp_dot_self _).1
            · exact (perp_dot_self _).2
          constructor
          · rcases hb with hb | hb <;> rw [hb] <;>
              rcases normalize2_unitOrZero ⟨o0.posX - z.posX, o0.posZ - z.posZ⟩ with hn | hn
            · left
              rw [(perp_normSq _).1, hn]
            · right
              rw [hn]
              simp
            · left
              rw [(perp_normSq _).2, hn]
            · right
              rw [hn]
              simp
          · intro o hnc hcd hscan
            injection hscan with ho
            subst ho
            exact ⟨hdot0, not_pointsAt_of_dot_eq_zero hdot0⟩

/-- Claim C4, counterexample.  An enemy (radius 0.5) whose pathfind cooldown
has not yet elapsed, with a blocking obstacle of radius 1 half a unit dead
ahead — within the radius-sum 1.5 — still receives the direct direction
`(0, 1)`, a nonzero vector pointing straight at the blocker, because the
cooldown branch skips the obstacle scan entirely. -/
theorem avoidance_cooldown_points_at_blocker :
    ((0 : ℝ) - 0) * (0 - 0) + ((0.5 : ℝ) - 0) * (0.5 - 0) ≤ ((1 : ℝ) + 0.5) * (1 + 0.5) ∧
    (getAvoidanceDirection ⟨0, 0, 0.5, false, 0, ⟨0, 0⟩, 0.05, 2⟩ ⟨0, 1⟩
        [⟨0, 0.5, some 1⟩] 0).2 = ⟨0, 1⟩ ∧
    PointsAt ⟨0, 1⟩ ⟨0 - 0, 0.5 - 0⟩ := by
  refine ⟨by norm_num, ?_, ?_⟩
  · rw [gAD_cooldown _ _ _ (by simp) (by norm_num [V2.normSq]) (by norm_num)]
    show normalize2 ⟨0 - 0, 1 - 0⟩ = ⟨0, 1⟩
    unfold normalize2 V2.normSq
    norm_num [Real.sqrt_one]
  · exact ⟨Or.inr one_ne_zero, 2, by norm_num, by norm_num, by norm_num⟩

/-- Witness for `getAvoidanceDirection_unit_and_detour`: the concrete
cooldown-branch call of the counterexample satisfies the cache invariant
(cache is the zero vector), and the theorem yields that its result is
unit-length or zero. -/
theorem getAvoidanceDirection_unit_and_detour_witness :
    UnitOrZero (AvState.mk 0 0 0.5 false 0 ⟨0, 0⟩ 0.05 2).avoidanceDirection ∧
    UnitOrZero (getAvoidanceDirection ⟨0, 0, 0.5, false, 0, ⟨0, 0⟩, 0.05, 2⟩ ⟨0, 1⟩
        [⟨0, 0.5, some 1⟩] 0).2 :=
  have hc : UnitOrZero (AvState.mk 0 0 0.5 false 0 ⟨0, 0⟩ 0.05 2).avoidanceDirection :=
    Or.inr rfl
  ⟨hc, (getAvoidanceDirection_unit_and_detour ⟨0, 0, 0.5, false, 0, ⟨0, 0⟩, 0.05, 2⟩
      ⟨0, 1⟩ [⟨0, 0.5, some 1⟩] 0 hc).1⟩

/-- Claim C8, amended.  When the enemy and its target occupy the same point,
`getAvoidanceDirection` returns the zero vector and leaves the state
unchanged — provided the call is not inside a sticky avoidance window
(`isAvoidingObstacle` with `avoidanceTime > 0`); in that window the cached
avoidance direction is returned before the zero-length check is ever reached
(see the counterexample). -/
theorem getAvoidanceDirection_zero_target (z : AvState) (target : V2)
    (obstacles : List Obstacle) (rnd : ℝ)
    (hnc : ¬ (z.isAvoidingObstacle = true ∧ z.avoidanceTime > 0))
    (hx : target.x - z.posX = 0) (hz : target.z - z.posZ = 0) :
    (getAvoidanceDirection z target obstacles rnd).2 = ⟨0, 0⟩ ∧
    (getAvoidanceDirection z target obstacles rnd).1 = z := by
  have h0 : (V2.mk (target.x - z.posX) (target.z - z.posZ)).normSq = 0 := by
    simp [V2.normSq, hx, hz]
  rw [gAD_zero_dir target obstacles rnd hnc h0]
  refine ⟨?_, rfl⟩
  show V2.mk (target.x - z.posX) (target.z - z.posZ) = ⟨0, 0⟩
  rw [hx, hz]

/-- Claim C8, counterexample.  An enemy inside its sticky avoidance window
(`isAvoidingObstacle = true`, `avoidanceTime = 0.1`, cached direction
`(1, 0)`) whose target coincides with its own position still gets the cached
nonzero direction back: the cached-direction early return precedes the
zero-length check. -/
theorem avoidance_sticky_nonzero_at_same_point :
    ((0 : ℝ) - 0 = 0 ∧ (0 : ℝ) - 0 = 0) ∧
    (getAvoidanceDirection ⟨0, 0, 0.5, true, 0.1, ⟨1, 0⟩, 0, 2⟩ ⟨0, 0⟩ [] 0).2 = ⟨1, 0⟩ ∧
    V2.mk 1 0 ≠ ⟨0, 0⟩ := by
  refine ⟨⟨by norm_num, by norm_num⟩, ?_, ?_⟩
  · rw [gAD_cached _ _ _ ⟨rfl, by norm_num⟩]
  · intro h
    have h1 := congrArg V2.x h
    simp at h1

/-- Witness for `getAvoidanceDirection_zero_target`: an enemy at `(3, 4)` not
currently avoiding, targeting exactly `(3, 4)`, receives the zero vector. -/
theorem getAvoidanceDirection_zero_target_witness :
    (¬ ((AvState.mk 3 4 0.5 false 0 ⟨0, 0⟩ 0.7 2).isAvoidingObstacle = true ∧
        (AvState.mk 3 4 0.5 false 0 ⟨0, 0⟩ 0.7 2).avoidanceTime > 0) ∧
      (3 : ℝ) - 3 = 0 ∧ (4 : ℝ) - 4 = 0) ∧
    (getAvoidanceDirection ⟨3, 4, 0.5, false, 0, ⟨0, 0⟩, 0.7, 2⟩ ⟨3, 4⟩
        [⟨0, 0, some 1⟩] 0).2 = ⟨0, 0⟩ :=
  have hnc : ¬ ((AvState.mk 3 4 0.5 false 0 ⟨0, 0⟩ 0.7 2).isAvoidingObstacle = true ∧
      (AvState.mk 3 4 0.5 false 0 ⟨0, 0⟩ 0.7 2).avoidanceTime > 0) := by simp
  ⟨⟨hnc, by norm_num, by norm_num⟩,
    (getAvoidanceDirection_zero_target ⟨3, 4, 0.5, false, 0, ⟨0, 0⟩, 0.7, 2⟩ ⟨3, 4⟩
      [⟨0, 0, some 1⟩] 0 hnc (by norm_num) (by norm_num)).1⟩

end Avoid
